import Mathlib

/-!
Verification development for the Lingolou audio synthesis & assembly engine
and its frontend components.  Pure functions from the repository are embedded
as executable Lean definitions; machine floats are modelled as rationals and
JavaScript template interpolation of numbers as decimal rendering.
-/

namespace Lingolou

/-! ### Decimal rendering of numbers (JS template interpolation) -/

/-- The decimal digit character for a digit value 0..9. -/
def digitChar (d : Nat) : Char :=
  match d with
  | 0 => '0' | 1 => '1' | 2 => '2' | 3 => '3' | 4 => '4'
  | 5 => '5' | 6 => '6' | 7 => '7' | 8 => '8' | 9 => '9'
  | _ => '*'

/-- The digit value of a decimal digit character (inverse of digitChar). -/
def charVal (c : Char) : Nat :=
  match c with
  | '0' => 0 | '1' => 1 | '2' => 2 | '3' => 3 | '4' => 4
  | '5' => 5 | '6' => 6 | '7' => 7 | '8' => 8 | '9' => 9
  | _ => 0

/-- Fuelled most-significant-first decimal digit list of a natural number. -/
def natToStrAux : Nat → Nat → List Char
  | 0, _ => []
  | fuel + 1, n =>
    if n < 10 then [digitChar n]
    else natToStrAux fuel (n / 10) ++ [digitChar (n % 10)]

/-- Decimal string of a natural number, as JS renders one in a template. -/
def natToStr (n : Nat) : String := String.mk (natToStrAux (n + 1) n)

/-- Decimal string of an integer, as JS renders one in a template. -/
def intToStr (i : Int) : String :=
  if i < 0 then "-" ++ natToStr i.natAbs else natToStr i.toNat

def denoteStep (a : Nat) (c : Char) : Nat := 10 * a + charVal c

/-- Reads a decimal digit string back to the number it denotes. -/
def denote (l : List Char) : Nat := l.foldl denoteStep 0

theorem charVal_digitChar {d : Nat} (h : d < 10) : charVal (digitChar d) = d := by
  interval_cases d <;> rfl

theorem natToStrAux_denote :
    ∀ (fuel n : Nat), n < 10 ^ fuel →
      ∀ a : Nat, (natToStrAux fuel n).foldl denoteStep a =
        a * 10 ^ (natToStrAux fuel n).length + n := by
  intro fuel
  induction fuel with
  | zero =>
    intro n hn a
    simp only [pow_zero, Nat.lt_one_iff] at hn
    subst hn
    simp [natToStrAux]
  | succ f ih =>
    intro n hn a
    by_cases h10 : n < 10
    · simp [natToStrAux, h10, denoteStep, charVal_digitChar h10]
      ring
    · have hdiv : n / 10 < 10 ^ f := by
        rw [Nat.div_lt_iff_lt_mul (by norm_num)]
        calc n < 10 ^ (f + 1) := hn
          _ = 10 ^ f * 10 := by ring
      have hmod : n % 10 < 10 := Nat.mod_lt _ (by norm_num)
      simp only [natToStrAux, if_neg h10, List.foldl_append, List.length_append,
        List.foldl_cons, List.foldl_nil, List.length_cons, List.length_nil]
      rw [ih (n / 10) hdiv a]
      simp [denoteStep, charVal_digitChar hmod]
      have := Nat.div_add_mod n 10
      ring_nf
      omega

theorem denote_natToStr (n : Nat) : denote (natToStr n).data = n := by
  have hlt : n < 10 ^ (n + 1) := by
    calc n < 10 ^ n := Nat.lt_pow_self (by norm_num) n
      _ ≤ 10 ^ (n + 1) := Nat.pow_le_pow_right (by norm_num) (Nat.le_succ n)
  have := natToStrAux_denote (n + 1) n hlt 0
  simpa [natToStr, denote] using this

theorem natToStr_injective : Function.Injective natToStr := by
  intro m n h
  have : denote (natToStr m).data = denote (natToStr n).data := by rw [h]
  rwa [denote_natToStr, denote_natToStr] at this

/-! ### AudioPlayer (frontend/src/components/AudioPlayer.jsx)

`formatDuration` renders a duration in seconds as an `m:ss` display, and the
component builds the audio source URL with a cache-busting query parameter
derived from the measured duration. -/

/-- JS `a % b` for the nonnegative arguments the player passes in. -/
def jsMod (a b : ℚ) : ℚ := a - b * (⌊a / b⌋ : ℤ)

/-- JS `s.padStart(2, '0')`. -/
def padStart2 (s : String) : String :=
  if s.length < 2 then String.mk (List.replicate (2 - s.length) '0') ++ s else s

/-- `formatDuration` from AudioPlayer.jsx: empty for a falsy duration, else
minutes `Math.floor(seconds / 60)` and seconds `Math.round(seconds % 60)`
rendered as `m:ss`. -/
def formatDuration (seconds : ℚ) : String :=
  if seconds = 0 then ""
  else intToStr ⌊seconds / 60⌋ ++ ":" ++ padStart2 (intToStr (round (jsMod seconds 60)))

/-- The cache-busting query string of AudioPlayer: `?v=` followed by
`Math.round(duration * 100)` when the duration is truthy, else the current
timestamp `Date.now()` (passed here as `now`). -/
def cacheBust (duration : Option ℚ) (now : Nat) : String :=
  match duration with
  | some d => if d = 0 then "?v=" ++ natToStr now else "?v=" ++ intToStr (round (d * 100))
  | none => "?v=" ++ natToStr now

/-- The audio source URL built by AudioPlayer.jsx. -/
def audioSrc (storyId chapterNumber : Nat) (duration : Option ℚ) (now : Nat) : String :=
  "/static/audio/" ++ natToStr storyId ++ "/ch" ++ natToStr chapterNumber ++ ".mp3"
    ++ cacheBust duration now

theorem string_append_left_cancel {s t u : String} (h : s ++ t = s ++ u) : t = u := by
  have h2 := congrArg String.data h
  rw [String.data_append, String.data_append] at h2
  exact congrArg String.mk (List.append_cancel_left h2)

theorem intToStr_inj_nonneg {i j : ℤ} (hi : 0 ≤ i) (hj : 0 ≤ j)
    (h : intToStr i = intToStr j) : i = j := by
  unfold intToStr at h
  rw [if_neg (not_lt.mpr hi), if_neg (not_lt.mpr hj)] at h
  have := natToStr_injective h
  omega

theorem round_nonneg_of_rat {x : ℚ} (h : 0 ≤ x) : 0 ≤ round x := by
  rw [round_eq]
  exact Int.floor_nonneg.mpr (by linarith)

/-- C9 (corrected): for positive durations the audio URL is a pure function of
(story id, chapter number, duration) that agrees on two durations exactly when
the rounded centisecond counts `Math.round(duration * 100)` agree — so a
regeneration changes the URL iff it changes the duration by enough to move the
rounded centisecond value — and an absent or zero duration falls back to the
current timestamp as the cache-bust parameter. -/
theorem C9_audioSrc_url_determined_by_rounded_centiseconds
    (storyId chapterNumber now : ℕ) (d d' : ℚ) (hd : 0 < d) (hd' : 0 < d') :
    (audioSrc storyId chapterNumber (some d) now = audioSrc storyId chapterNumber (some d') now
      ↔ round (d * 100) = round (d' * 100))
    ∧ (∀ now2 : ℕ, audioSrc storyId chapterNumber (some d) now
        = audioSrc storyId chapterNumber (some d) now2)
    ∧ cacheBust (some 0) now = "?v=" ++ natToStr now
    ∧ cacheBust none now = "?v=" ++ natToStr now := by
  refine ⟨⟨?_, ?_⟩, ?_, by simp [cacheBust], rfl⟩
  case refine_3 =>
    intro now2
    simp [audioSrc, cacheBust, if_neg (ne_of_gt hd)]
  · intro h
    simp only [audioSrc, cacheBust, if_neg (ne_of_gt hd), if_neg (ne_of_gt hd')] at h
    have h2 := string_append_left_cancel h
    have h3 := string_append_left_cancel h2
    exact intToStr_inj_nonneg
      (round_nonneg_of_rat (by positivity)) (round_nonneg_of_rat (by positivity)) h3
  · intro h
    simp only [audioSrc, cacheBust, if_neg (ne_of_gt hd), if_neg (ne_of_gt hd')]
    rw [h]

/-- C9 counterexample: the claim that a regeneration changing the measured
duration always produces a different URL is false — durations 1.0s and 1.001s
differ, yet both render the URL with cache-bust value 100. -/
theorem C9_counterexample_equal_urls_for_different_durations :
    (1 : ℚ) ≠ 1001 / 1000
      ∧ audioSrc 7 1 (some 1) 0 = audioSrc 7 1 (some (1001 / 1000)) 0 := by
  with_unfolding_all decide

/-- C9 witness: the amended equivalence at story 7, chapter 1, durations
1.2s and 1.21s (distinct rounded centisecond values, hence distinct URLs). -/
theorem C9_witness_concrete_durations :
    (0 : ℚ) < 6 / 5 ∧ (0 : ℚ) < 121 / 100
      ∧ (audioSrc 7 1 (some (6 / 5)) 0 = audioSrc 7 1 (some (121 / 100)) 0
          ↔ round ((6 / 5 : ℚ) * 100) = round ((121 / 100 : ℚ) * 100)) :=
  ⟨by with_unfolding_all decide, by with_unfolding_all decide,
    (C9_audioSrc_url_determined_by_rounded_centiseconds 7 1 0 (6 / 5) (121 / 100)
      (by with_unfolding_all decide) (by with_unfolding_all decide)).1⟩

/-- C10 counterexample: at duration 59.7s `formatDuration` renders "0:60",
and no seconds value between 00 and 59 renders that output with minutes 0 —
the claimed 00–59 bound on the seconds component is false. -/
theorem C10_counterexample_sixty_seconds :
    formatDuration (597 / 10) = "0:60"
    ∧ ∀ n : ℕ, n < 60 → "0:" ++ padStart2 (natToStr n) ≠ formatDuration (597 / 10) := by
  with_unfolding_all decide

theorem natToStrAux_small {fuel n : ℕ} (hf : 0 < fuel) (h : n < 10) :
    natToStrAux fuel n = [digitChar n] := by
  cases fuel with
  | zero => omega
  | succ f => rw [natToStrAux, if_pos h]

theorem natToStr_length_le_two {n : ℕ} (h : n < 100) : (natToStr n).length ≤ 2 := by
  by_cases h10 : n < 10
  · rw [natToStr, natToStrAux_small (by omega) h10]
    simp [String.length]
  · rw [natToStr, natToStrAux, if_neg h10]
    have hdiv : n / 10 < 10 := by omega
    rw [natToStrAux_small (by omega) hdiv]
    simp [String.length]

theorem natToStr_length_pos (n : ℕ) : 1 ≤ (natToStr n).length := by
  by_cases h10 : n < 10
  · rw [natToStr, natToStrAux_small (by omega) h10]
    simp [String.length]
  · rw [natToStr, natToStrAux, if_neg h10]
    simp [String.length]

theorem padStart2_length_eq_two {s : String} (h1 : 1 ≤ s.length) (h2 : s.length ≤ 2) :
    (padStart2 s).length = 2 := by
  rw [padStart2]
  split_ifs with h
  · rw [String.length_append]
    simp only [String.length]
    simp
    omega
  · omega

/-- C10 (corrected): for positive d, `formatDuration d` renders
`floor(d/60)` minutes and `round(d mod 60)` seconds as `m:ss` with a
two-digit seconds component between 00 and 60 — not 59: the seconds read 60
exactly when d mod 60 rounds up to a whole minute — and minutes·60 + seconds
always equals d rounded to the nearest whole second. -/
theorem C10_formatDuration_structure (d : ℚ) (hd : 0 < d) :
    formatDuration d
      = intToStr ⌊d / 60⌋ ++ ":" ++ padStart2 (intToStr (round (jsMod d 60)))
    ∧ 0 ≤ round (jsMod d 60) ∧ round (jsMod d 60) ≤ 60
    ∧ ⌊d / 60⌋ * 60 + round (jsMod d 60) = round d
    ∧ (padStart2 (intToStr (round (jsMod d 60)))).length = 2 := by
  have hmod_eq : jsMod d 60 = 60 * Int.fract (d / 60) := by
    rw [jsMod, Int.fract]
    ring
  have hmod_nonneg : 0 ≤ jsMod d 60 := by
    rw [hmod_eq]
    have := Int.fract_nonneg (d / 60)
    positivity
  have hmod_lt : jsMod d 60 < 60 := by
    rw [hmod_eq]
    have := Int.fract_lt_one (d / 60)
    nlinarith
  have hs_nonneg : 0 ≤ round (jsMod d 60) := round_nonneg_of_rat hmod_nonneg
  have hs_le : round (jsMod d 60) ≤ 60 := by
    rw [round_eq]
    calc ⌊jsMod d 60 + 1 / 2⌋ ≤ ⌊(121 : ℚ) / 2⌋ := Int.floor_le_floor (by linarith)
      _ = 60 := by norm_num
  refine ⟨?_, hs_nonneg, hs_le, ?_, ?_⟩
  · rw [formatDuration, if_neg (ne_of_gt hd)]
  · have hcast : jsMod d 60 + 1 / 2 = (d + 1 / 2) - ((60 * ⌊d / 60⌋ : ℤ) : ℚ) := by
      rw [jsMod]
      push_cast
      ring
    rw [round_eq, round_eq, hcast, Int.floor_sub_int]
    ring
  · have h1 : 1 ≤ (intToStr (round (jsMod d 60))).length := by
      rw [intToStr, if_neg (not_lt.mpr hs_nonneg)]
      exact natToStr_length_pos _
    have h2 : (intToStr (round (jsMod d 60))).length ≤ 2 := by
      rw [intToStr, if_neg (not_lt.mpr hs_nonneg)]
      exact natToStr_length_le_two (by omega)
    exact padStart2_length_eq_two h1 h2

/-- C10 witness: the corrected structure at d = 59.7s, where the seconds
component reaches 60 while minutes·60 + seconds still equals round(d). -/
theorem C10_witness_at_59_7 :
    (0 : ℚ) < 597 / 10
    ∧ ⌊(597 : ℚ) / 10 / 60⌋ * 60 + round (jsMod (597 / 10) 60) = round ((597 : ℚ) / 10)
    ∧ round (jsMod ((597 : ℚ) / 10) 60) ≤ 60 :=
  ⟨by with_unfolding_all decide,
    (C10_formatDuration_structure (597 / 10) (by with_unfolding_all decide)).2.2.2.1,
    (C10_formatDuration_structure (597 / 10) (by with_unfolding_all decide)).2.2.1⟩

/-! ### Script Entry Model and Emotion Parameter Mapper

The audio engine itself (the Python backend described by README.md §"Audio
Generation" and the spec) ships outside the frontend sources; its data model
and pure components are modelled from the spec below. -/

/-- Generic association-list lookup, first match wins. -/
def alookup {κ α : Type} [DecidableEq κ] (key : κ) : List (κ × α) → Option α
  | [] => none
  | (k, v) :: rest => if k = key then some v else alookup key rest

/-- Splits a character list at the first occurrence of `c`, dropping it. -/
def splitAtChar (c : Char) : List Char → Option (List Char × List Char)
  | [] => none
  | x :: xs =>
    if x = c then some ([], xs)
    else
      match splitAtChar c xs with
      | some (pre, post) => some (x :: pre, post)
      | none => none

/-- Modelled from the spec: the Emotion Parameter Mapper's tag detection
(backend `generate_audiobook.py`, not under src/) — an optional leading
bracketed `[tag]` is the emotion label and is stripped, with following
spaces, from the text sent to the voice service. -/
def parseTagChars : List Char → Option (List Char) × List Char
  | [] => (none, [])
  | x :: xs =>
    if x = '[' then
      match splitAtChar ']' xs with
      | some (label, post) => (some label, post.dropWhile (fun ch => ch = ' '))
      | none => (none, x :: xs)
    else (none, x :: xs)

/-- Leading emotion tag and remaining text of a raw line text. -/
def parseTag (s : String) : Option String × String :=
  match parseTagChars s.data with
  | (some label, rest) => (some (String.mk label), String.mk rest)
  | (none, _) => (none, s)

def toLowerString (s : String) : String := String.mk (s.data.map Char.toLower)

/-- Per-speaker Voice Profile (voices_config.json shape, README §Voice
Configuration). -/
structure VoiceProfile where
  voice_id : String
  stability : ℚ
  similarity_boost : ℚ
  style : ℚ
  use_speaker_boost : Bool
deriving DecidableEq

/-- Voice delivery parameters selected for one synthesis call. -/
structure EmotionParams where
  stability : ℚ
  style : ℚ
deriving DecidableEq

/-- Modelled from the spec: the Emotion Parameter Mapper (backend, not under
src/) — the label is looked up case-insensitively in a fixed table; unknown
or absent labels use the speaker's base Voice Profile values unmodified. -/
def applyEmotion (table : List (String × EmotionParams)) (vp : VoiceProfile)
    (text : String) : EmotionParams × String :=
  match parseTag text with
  | (none, _) => (⟨vp.stability, vp.style⟩, text)
  | (some label, stripped) =>
    match alookup (toLowerString label) table with
    | some p => (p, stripped)
    | none => (⟨vp.stability, vp.style⟩, stripped)

/-- One request issued to the external voice-synthesis service. -/
structure SynthCall where
  speaker : String
  voice_id : String
  stability : ℚ
  style : ℚ
  text : String
deriving DecidableEq

/-- Typed script entry (spec §3 tagged union; unknown kinds preserved). -/
inductive ScriptEntry
  | line (speaker lang text : String) (transliteration gloss : Option String)
  | pause (seconds : ℚ)
  | scene (description : String)
  | sfx (description : String)
  | performance (description : String)
  | bg (description : String)
  | music (description : String)
  | endMark (description : String)
  | unknown (kind : String)
deriving DecidableEq

/-- Untyped raw script record as uploaded/stored (JSON story format). -/
structure RawEntry where
  kind : String
  speaker : Option String
  lang : Option String
  text : Option String
  transliteration : Option String
  gloss : Option String
  seconds : Option ℚ
  description : Option String
  value : Option String
deriving DecidableEq

inductive MalformedScript
  | mk (message : String)
deriving DecidableEq

def knownKinds : List String :=
  ["line", "pause", "scene", "sfx", "performance", "bg", "music", "end"]

/-- Modelled from the spec: the Script Entry Model's validation (backend, not
under src/) — an entry missing a required field for its kind, or a line whose
speaker or tag-stripped text is empty, fails with MalformedScript; unknown
kinds are preserved as opaque no-audio entries. -/
def validateEntry (e : RawEntry) : Except MalformedScript ScriptEntry :=
  if e.kind = "line" then
    match e.speaker, e.lang, e.text with
    | some sp, some lg, some tx =>
      if sp = "" then .error (.mk "line entry has empty speaker")
      else if (parseTag tx).2 = "" then .error (.mk "line entry has empty text")
      else .ok (.line sp lg tx e.transliteration e.gloss)
    | _, _, _ => .error (.mk "line entry missing required field")
  else if e.kind = "pause" then
    match e.seconds with
    | some s => .ok (.pause s)
    | none => .error (.mk "pause entry missing seconds")
  else if e.kind = "scene" then
    match e.description with
    | some d => .ok (.scene d)
    | none => .error (.mk "scene entry missing description")
  else if e.kind = "sfx" then
    match e.description with
    | some d => .ok (.sfx d)
    | none => .error (.mk "sfx entry missing description")
  else if e.kind = "performance" then
    match e.description with
    | some d => .ok (.performance d)
    | none => .error (.mk "performance entry missing description")
  else if e.kind = "bg" then .ok (.bg ((e.value).getD ""))
  else if e.kind = "music" then .ok (.music ((e.value).getD ""))
  else if e.kind = "end" then .ok (.endMark ((e.value).getD ""))
  else .ok (.unknown e.kind)

/-- Modelled from the spec: script-level validation, entry by entry in array
order (pure transformation, first failure wins). -/
def validateScript : List RawEntry → Except MalformedScript (List ScriptEntry)
  | [] => .ok []
  | e :: rest =>
    match validateEntry e with
    | .error err => .error err
    | .ok t =>
      match validateScript rest with
      | .error err => .error err
      | .ok ts => .ok (t :: ts)

/-- An entry is missing a field its kind requires (spec §3, §4.1). -/
def missingRequiredField (e : RawEntry) : Prop :=
  (e.kind = "line" ∧ (e.speaker = none ∨ e.lang = none ∨ e.text = none))
  ∨ (e.kind = "pause" ∧ e.seconds = none)
  ∨ ((e.kind = "scene" ∨ e.kind = "sfx" ∨ e.kind = "performance") ∧ e.description = none)

/-- A line entry whose speaker, or text after emotion-tag stripping, is
empty. -/
def lineEmptyAfterStrip (e : RawEntry) : Prop :=
  e.kind = "line" ∧ ∃ sp lg tx, e.speaker = some sp ∧ e.lang = some lg ∧ e.text = some tx
    ∧ (sp = "" ∨ (parseTag tx).2 = "")

/-- Implicit fixed audio duration contributed by a non-line entry (README
entry-type table: scene 1s, sfx 0.3s, performance 0.5s; metadata and unknown
kinds contribute none). -/
def entrySilence : ScriptEntry → ℚ
  | .pause s => s
  | .scene _ => 1
  | .sfx _ => 3 / 10
  | .performance _ => 1 / 2
  | _ => 0

theorem validateEntry_error_iff (e : RawEntry) :
    (∃ err, validateEntry e = Except.error err)
      ↔ missingRequiredField e ∨ lineEmptyAfterStrip e := by
  rcases e with ⟨kind, speaker, lang, text, tr, gl, secs, desc, v⟩
  by_cases hline : kind = "line"
  · subst hline
    cases speaker <;> cases lang <;> cases text <;>
        simp only [validateEntry, missingRequiredField, lineEmptyAfterStrip, if_pos rfl] <;>
      simp_all
    split_ifs <;> simp_all
  · by_cases hpause : kind = "pause"
    · subst hpause
      cases secs <;>
        simp [validateEntry, missingRequiredField, lineEmptyAfterStrip]
    · by_cases hscene : kind = "scene"
      · subst hscene
        cases desc <;>
          simp [validateEntry, missingRequiredField, lineEmptyAfterStrip]
      · by_cases hsfx : kind = "sfx"
        · subst hsfx
          cases desc <;>
            simp [validateEntry, missingRequiredField, lineEmptyAfterStrip]
        · by_cases hperf : kind = "performance"
          · subst hperf
            cases desc <;>
              simp [validateEntry, missingRequiredField, lineEmptyAfterStrip]
          · simp [validateEntry, missingRequiredField, lineEmptyAfterStrip,
              hline, hpause, hscene, hsfx, hperf]
            split_ifs <;> simp

theorem validateScript_error_iff (s : List RawEntry) :
    (∃ err, validateScript s = Except.error err)
      ↔ ∃ e ∈ s, missingRequiredField e ∨ lineEmptyAfterStrip e := by
  induction s with
  | nil => simp [validateScript]
  | cons e rest ih =>
    rcases hve : validateEntry e with err | t
    · have hbad := (validateEntry_error_iff e).mp ⟨err, hve⟩
      simp only [validateScript, hve]
      constructor
      · intro _; exact ⟨e, List.mem_cons_self e rest, hbad⟩
      · intro _; exact ⟨err, rfl⟩
    · rcases hvs : validateScript rest with err | ts
      · have hbadr := ih.mp ⟨err, hvs⟩
        simp only [validateScript, hve, hvs]
        constructor
        · intro _
          obtain ⟨x, hx, hbx⟩ := hbadr
          exact ⟨x, List.mem_cons_of_mem e hx, hbx⟩
        · intro _; exact ⟨err, rfl⟩
      · simp only [validateScript, hve, hvs]
        constructor
        · rintro ⟨err, h⟩; cases h
        · rintro ⟨x, hx, hbx⟩
          rcases List.mem_cons.mp hx with hx0 | hxr
          · subst hx0
            obtain ⟨err, h⟩ := (validateEntry_error_iff x).mpr hbx
            rw [hve] at h; cases h
          · obtain ⟨err, h⟩ := ih.mpr ⟨x, hxr, hbx⟩
            rw [hvs] at h; cases h

/-- C4: a raw script fails validation with MalformedScript exactly when some
entry is missing a required field for its kind or is a line entry whose
speaker or tag-stripped text is empty; entries of unknown kind are accepted,
preserved opaque, and contribute no audio; validation is a pure
transformation. -/
theorem C4_validation_fails_exactly_on_malformed_entries (script : List RawEntry) :
    ((∃ err, validateScript script = Except.error err)
      ↔ ∃ e ∈ script, missingRequiredField e ∨ lineEmptyAfterStrip e)
    ∧ (∀ e : RawEntry, e.kind ∉ knownKinds → validateEntry e = Except.ok (.unknown e.kind))
    ∧ (∀ k, entrySilence (.unknown k) = 0) := by
  refine ⟨validateScript_error_iff script, ?_, fun k => rfl⟩
  intro e hk
  simp only [knownKinds, List.mem_cons, List.mem_singleton, not_or] at hk
  obtain ⟨h1, h2, h3, h4, h5, h6, h7, h8⟩ := hk
  simp [validateEntry, h1, h2, h3, h4, h5, h6, h7, h8]

/-- C4 witness: a pause entry with no seconds field is rejected, and an
unknown-kind entry is accepted as an opaque no-audio entry. -/
theorem C4_witness_pause_missing_seconds :
    (∃ err, validateScript
        [RawEntry.mk "pause" none none none none none none none none]
      = Except.error err)
    ∧ validateEntry (RawEntry.mk "laugh" none none none none none none none none)
      = Except.ok (.unknown "laugh") :=
  ⟨(C4_validation_fails_exactly_on_malformed_entries
      [RawEntry.mk "pause" none none none none none none none none]).1.mpr
      ⟨RawEntry.mk "pause" none none none none none none none none,
        List.mem_cons_self _ _, Or.inl (Or.inr (Or.inl ⟨rfl, rfl⟩))⟩,
    (C4_validation_fails_exactly_on_malformed_entries []).2.1
      (RawEntry.mk "laugh" none none none none none none none none)
      (by decide)⟩

/-- The synthesis calls the engine issues for a list of entries, one per
individual-speaker line, with emotion-adjusted parameters and stripped
text. -/
def synthCallsOfEntries (table : List (String × EmotionParams))
    (profiles : List (String × VoiceProfile)) (entries : List ScriptEntry) :
    List SynthCall :=
  entries.filterMap fun e =>
    match e with
    | .line sp _ tx _ _ =>
      match alookup sp profiles with
      | some vp =>
        some ⟨sp, vp.voice_id, (applyEmotion table vp tx).1.stability,
              (applyEmotion table vp tx).1.style, (applyEmotion table vp tx).2⟩
      | none => none
    | _ => none

/-- C3: a leading bracketed tag is stripped from the synthesized text and its
label is looked up case-insensitively in the emotion table to override the
stability/style parameters; absent or unknown tags leave the base Voice
Profile values unmodified with no error; in particular the Hello/pause/
"[excited] Bye!" script issues its second call with the table's "excited"
parameters and text "Bye!" while the first call uses the base values. -/
theorem C3_emotion_tag_resolution (table : List (String × EmotionParams))
    (vp : VoiceProfile) (text : String) :
    ((parseTag text).1 = none →
      applyEmotion table vp text = (⟨vp.stability, vp.style⟩, text))
    ∧ (∀ label stripped p, parseTag text = (some label, stripped) →
        alookup (toLowerString label) table = some p →
        applyEmotion table vp text = (p, stripped))
    ∧ (∀ label stripped, parseTag text = (some label, stripped) →
        alookup (toLowerString label) table = none →
        applyEmotion table vp text = (⟨vp.stability, vp.style⟩, stripped))
    ∧ (∀ p : EmotionParams, alookup "excited" table = some p →
        synthCallsOfEntries table [("A", vp)]
          [.line "A" "en" "Hello" none none, .pause (1 / 2),
            .line "A" "en" "[excited] Bye!" none none]
          = [⟨"A", vp.voice_id, vp.stability, vp.style, "Hello"⟩,
             ⟨"A", vp.voice_id, p.stability, p.style, "Bye!"⟩]) := by
  refine ⟨?_, ?_, ?_, ?_⟩
  · intro h
    rcases hpt : parseTag text with ⟨tag, rest⟩
    rw [hpt] at h
    simp only at h
    subst h
    simp [applyEmotion, hpt]
  · intro label stripped p hpt hlk
    simp [applyEmotion, hpt, hlk]
  · intro label stripped hpt hlk
    simp [applyEmotion, hpt, hlk]
  · intro p hp
    have h1 : parseTag "Hello" = (none, "Hello") := by with_unfolding_all decide
    have h2 : parseTag "[excited] Bye!" = (some "excited", "Bye!") := by
      with_unfolding_all decide
    have h3 : toLowerString "excited" = "excited" := by with_unfolding_all decide
    simp [synthCallsOfEntries, applyEmotion, h1, h2, h3, hp, alookup]

/-- A concrete emotion table mapping "excited" to stability 0.3. -/
def sampleEmotionTable : List (String × EmotionParams) := [("excited", ⟨3 / 10, 17 / 20⟩)]

/-- A concrete base Voice Profile with stability 0.5. -/
def sampleProfileA : VoiceProfile := ⟨"voiceA", 1 / 2, 19 / 20, 1 / 5, true⟩

/-- C3 witness: the spec's example, at a concrete table and profile. -/
theorem C3_witness_excited_example :
    synthCallsOfEntries sampleEmotionTable [("A", sampleProfileA)]
        [.line "A" "en" "Hello" none none, .pause (1 / 2),
          .line "A" "en" "[excited] Bye!" none none]
      = [⟨"A", "voiceA", 1 / 2, 1 / 5, "Hello"⟩,
         ⟨"A", "voiceA", 3 / 10, 17 / 20, "Bye!"⟩] :=
  (C3_emotion_tag_resolution sampleEmotionTable sampleProfileA "").2.2.2
    ⟨3 / 10, 17 / 20⟩ (by with_unfolding_all decide)

/-! ### Audio buffers and group-chatter mixing (Audio Assembler, spec §4.5) -/

/-- A raw audio buffer: its samples at the model sampling rate of 10 samples
per second (so durations in seconds are rationals with one decimal). -/
abbrev Buffer := List ℚ

/-- Duration in seconds of a buffer. -/
def durationOf (b : Buffer) : ℚ := (b.length : ℚ) / 10

/-- Length in samples of the longest member buffer. -/
def maxLen (members : List Buffer) : ℕ := (members.map List.length).foldr Nat.max 0

/-- Modelled from the spec: the Audio Assembler's group overlay (backend, not
under src/) — every member buffer is padded with trailing silence to the
longest member's length, then all members are mixed sample-wise additively
with a per-member gain of 1/n. -/
def mixBuffers (members : List Buffer) : Buffer :=
  (List.range (maxLen members)).map
    fun i => (members.map fun b => b.getD i 0).sum / (members.length : ℚ)

theorem length_mixBuffers (members : List Buffer) :
    (mixBuffers members).length = maxLen members := by
  simp [mixBuffers]

theorem len_le_maxLen (members : List Buffer) :
    ∀ k, k < members.length → (members.getD k []).length ≤ maxLen members := by
  induction members with
  | nil => intro k hk; simp at hk
  | cons b rest ih =>
    intro k hk
    cases k with
    | zero => simp [maxLen, List.getD]
    | succ k =>
      have := ih k (by simpa using hk)
      calc ((b :: rest).getD (k + 1) []).length = (rest.getD k []).length := by
            simp [List.getD]
        _ ≤ maxLen rest := this
        _ ≤ maxLen (b :: rest) := by simp [maxLen]

theorem maxLen_cast_div (members : List Buffer) :
    ((maxLen members : ℚ)) / 10 = (members.map durationOf).foldr max 0 := by
  induction members with
  | nil => simp [maxLen]
  | cons b rest ih =>
    have h10 : (0 : ℚ) < 10 := by norm_num
    calc ((maxLen (b :: rest) : ℚ)) / 10
        = (max (b.length : ℚ) (maxLen rest : ℚ)) / 10 := by
          simp [maxLen, Nat.cast_max]
      _ = max ((b.length : ℚ) / 10) ((maxLen rest : ℚ) / 10) := by
          rw [max_div_div_right (le_of_lt h10)]
      _ = max (durationOf b) ((rest.map durationOf).foldr max 0) := by
          rw [durationOf, ih]
      _ = ((b :: rest).map durationOf).foldr max 0 := by simp

theorem mixBuffers_getD (members : List Buffer) (i : ℕ) (hi : i < maxLen members) :
    (mixBuffers members).getD i 0
      = (members.map fun b => b.getD i 0).sum / (members.length : ℚ) := by
  rw [mixBuffers, List.getD_eq_getElem _ _ (by simpa using hi)]
  simp

theorem sum_eq_getD_of_others_zero :
    ∀ (l : List ℚ) (k : ℕ), k < l.length →
      (∀ j, j < l.length → j ≠ k → l.getD j 0 = 0) → l.sum = l.getD k 0 := by
  intro l
  induction l with
  | nil => intro k hk; simp at hk
  | cons x rest ih =>
    intro k hk hz
    cases k with
    | zero =>
      have hrest : ∀ j, j < rest.length → rest.getD j 0 = 0 := by
        intro j hj
        have := hz (j + 1) (by simpa using hj) (by omega)
        simpa [List.getD] using this
      have : rest.sum = 0 := by
        clear ih hz hk
        induction rest with
        | nil => simp
        | cons y t iht =>
          have hy := hrest 0 (by simp)
          simp [List.getD] at hy
          have ht : ∀ j, j < t.length → t.getD j 0 = 0 := by
            intro j hj
            have := hrest (j + 1) (by simpa using hj)
            simpa [List.getD] using this
          simp [hy, iht ht]
      simp [List.getD, this]
    | succ k =>
      have hx : x = 0 := by
        have := hz 0 (by simp) (by omega)
        simpa [List.getD] using this
      have := ih k (by simpa using hk) (by
        intro j hj hjk
        have := hz (j + 1) (by simpa using hj) (by omega)
        simpa [List.getD] using this)
      simp [List.getD, hx, this]

theorem getD_map_getD (members : List Buffer) (i j : ℕ) (hj : j < members.length) :
    (members.map fun b => b.getD i 0).getD j 0 = (members.getD j []).getD i 0 := by
  rw [List.getD_eq_getElem members _ hj,
    List.getD_eq_getElem _ _ (by simpa using hj), List.getElem_map]

/-- C1: for a group-alias line with at least two members, the mixed Audio
Segment's duration equals the longest member buffer's duration, each mixed
sample is the 1/n-gain additive overlay of all member buffers padded with
trailing silence, and a member audible alone at a sample makes the mix
non-zero there (non-zero contribution from every member). -/
theorem C1_group_mix_duration_and_contribution (members : List Buffer)
    (h2 : 2 ≤ members.length) :
    durationOf (mixBuffers members) = (members.map durationOf).foldr max 0
    ∧ (∀ i, i < maxLen members →
        (mixBuffers members).getD i 0
          = (members.map fun b => b.getD i 0).sum / (members.length : ℚ))
    ∧ (∀ k i, k < members.length → i < (members.getD k []).length →
        (∀ j, j < members.length → j ≠ k → (members.getD j []).getD i 0 = 0) →
        (members.getD k []).getD i 0 ≠ 0 → (mixBuffers members).getD i 0 ≠ 0) := by
  refine ⟨?_, fun i hi => mixBuffers_getD members i hi, ?_⟩
  · rw [durationOf, length_mixBuffers, maxLen_cast_div]
  · intro k i hk hi hz hnz
    have himax : i < maxLen members := lt_of_lt_of_le hi (len_le_maxLen members k hk)
    rw [mixBuffers_getD members i himax]
    have hlen : (members.map fun b => b.getD i 0).length = members.length := by simp
    have hsum : (members.map fun b => b.getD i 0).sum
        = (members.map fun b => b.getD i 0).getD k 0 := by
      apply sum_eq_getD_of_others_zero _ k (by rw [hlen]; exact hk)
      intro j hj hjk
      rw [hlen] at hj
      rw [getD_map_getD members i j hj]
      exact hz j hj hjk
    rw [hsum, getD_map_getD members i k hk]
    exact div_ne_zero hnz (Nat.cast_ne_zero.mpr (by omega))

/-- Three member buffers of durations 1.2s, 0.8s and 1.5s. -/
def sampleMembers : List Buffer :=
  [List.replicate 12 1, List.replicate 8 1, List.replicate 15 1]

/-- C1 witness: member durations 1.2s, 0.8s, 1.5s mix to a 1.5s segment, and
the third member alone keeps the mix audible at sample 14. -/
theorem C1_witness_example_durations :
    durationOf (mixBuffers sampleMembers) = 3 / 2
    ∧ (mixBuffers sampleMembers).getD 14 0 ≠ 0 :=
  ⟨(C1_group_mix_duration_and_contribution sampleMembers (by decide)).1.trans
      (by with_unfolding_all decide),
    (C1_group_mix_duration_and_contribution sampleMembers (by decide)).2.2 2 14
      (by decide) (by with_unfolding_all decide)
      (by with_unfolding_all decide) (by with_unfolding_all decide)⟩

/-! ### Script viewer rendering (PublicScriptViewer.jsx / ScriptViewer.jsx)

The viewers fetch a chapter script and render `entries.map((entry, idx) =>
<ScriptEntryComponent .../>)` — one node per entry, in array order. -/

/-- Raw viewer entry (the ScriptEntry interface of PublicScriptViewer). -/
structure ViewEntry where
  type : Option String
  speaker : Option String
  lang : Option String
  language : Option String
  text : Option String
  emotion : Option String
  transliteration : Option String
  gloss_en : Option String
  translation : Option String
  english : Option String
  description : Option String
  heading : Option String
  title : Option String
  seconds : Option ℚ
  duration : Option ℚ
  value : Option String
deriving DecidableEq

def defaultViewEntry : ViewEntry :=
  ⟨none, none, none, none, none, none, none, none,
    none, none, none, none, none, none, none, none⟩

/-- JS truthiness of an optional string (undefined and "" are falsy). -/
def truthy : Option String → Bool
  | some s => decide (s ≠ "")
  | none => false

/-- JS truthiness of an optional number (undefined and 0 are falsy). -/
def qTruthy : Option ℚ → Bool
  | some q => decide (q ≠ 0)
  | none => false

/-- JS `a || b || ... || ''` over optional strings. -/
def strOr : List (Option String) → String
  | [] => ""
  | a :: rest =>
    match a with
    | some s => if s = "" then strOr rest else s
    | none => strOr rest

/-- A span is rendered only for a truthy value. -/
def presentStr (s : String) : Option String := if s = "" then none else some s

/-- One DOM node produced by ScriptEntryComponent. -/
inductive RenderedNode
  | dialogue (speaker : String) (langTag emotion text transliteration gloss : Option String)
  | scene (text : String)
  | pauseMark (seconds : Option ℚ)
  | sfx (text : String)
  | meta (kind text : String)
  | plain (text : String)
deriving DecidableEq

/-- The branch dispatch of ScriptEntryComponent (PublicScriptViewer.jsx):
dialogue, scene, pause, sfx, metadata kinds, plain-text fallback, or
nothing. -/
def renderEntry (e : ViewEntry) : Option RenderedNode :=
  let t := (e.type).getD ""
  if t = "line" ∨ t = "dialogue" ∨ truthy e.speaker then
    some (.dialogue ((e.speaker).getD "")
      (presentStr (strOr [e.lang, e.language]))
      (presentStr (strOr [e.emotion]))
      (presentStr (strOr [e.text]))
      (presentStr (strOr [e.transliteration]))
      (presentStr (strOr [e.gloss_en, e.translation, e.english])))
  else if t = "scene" ∨ t = "scene_heading" then
    some (.scene (strOr [e.text, e.description, e.heading, e.title]))
  else if t = "pause" then
    some (.pauseMark
      (if qTruthy e.seconds then e.seconds
        else if qTruthy e.duration then e.duration else none))
  else if t = "sfx" ∨ t = "sound_effect" then
    some (.sfx (strOr [e.value, e.text, e.description]))
  else if t = "bg" ∨ t = "music" ∨ t = "performance" ∨ t = "end" then
    some (.meta t (strOr [e.value, e.text]))
  else if truthy e.text then some (.plain ((e.text).getD ""))
  else none

/-- The viewer's rendered list: one node slot per entry, in array order. -/
def viewScript (entries : List ViewEntry) : List (Option RenderedNode) :=
  entries.map renderEntry

/-! ### Ordered reassembly (Audio Assembler, spec §4.5 / §5) -/

/-- An Audio Segment: duration in seconds, a silent flag, and samples. -/
structure Segment where
  dur : ℚ
  silent : Bool
  samples : Buffer
deriving DecidableEq

def silenceSeg (t : ℚ) : Segment := ⟨t, true, []⟩

def speechSeg (b : Buffer) : Segment := ⟨durationOf b, false, b⟩

/-- Modelled from the spec: the Audio Assembler's per-entry segments
(backend, not under src/) — silence for pause/scene/sfx/performance, the
synthesized buffer for a line (fetched by the line's original entry index),
nothing for metadata or unknown entries. -/
def segmentsOf (lookup : ℕ → Option Buffer) (i : ℕ) : ScriptEntry → List Segment
  | .line _ _ _ _ _ =>
    match lookup i with
    | some b => [speechSeg b]
    | none => []
  | .pause s => [silenceSeg s]
  | .scene _ => [silenceSeg 1]
  | .sfx _ => [silenceSeg (3 / 10)]
  | .performance _ => [silenceSeg (1 / 2)]
  | .bg _ => []
  | .music _ => []
  | .endMark _ => []
  | .unknown _ => []

/-- Modelled from the spec: segments are emitted strictly in entry order,
each tagged with its source entry index. -/
def assembleFrom (lookup : ℕ → Option Buffer) (i : ℕ) :
    List ScriptEntry → List (ℕ × Segment)
  | [] => []
  | e :: rest =>
    (segmentsOf lookup i e).map (fun s => (i, s)) ++ assembleFrom lookup (i + 1) rest

def assemble (lookup : ℕ → Option Buffer) (entries : List ScriptEntry) :
    List (ℕ × Segment) :=
  assembleFrom lookup 0 entries

/-- The buffer delivered for entry index `j`, read off the completion-ordered
result list by original entry index. -/
def lookupResult (completed : List (ℕ × Buffer)) (j : ℕ) : Option Buffer :=
  ((completed.filter fun p => decide (p.1 = j)).map Prod.snd).head?

theorem assembleFrom_fst_ge (lookup : ℕ → Option Buffer) :
    ∀ (l : List ScriptEntry) (i : ℕ) (p : ℕ × Segment),
      p ∈ assembleFrom lookup i l → i ≤ p.1 := by
  intro l
  induction l with
  | nil => intro i p hp; simp [assembleFrom] at hp
  | cons e rest ih =>
    intro i p hp
    rcases List.mem_append.mp hp with hl | hr
    · obtain ⟨s, _, rfl⟩ := List.mem_map.mp hl
      exact le_refl i
    · exact le_trans (Nat.le_succ i) (ih (i + 1) p hr)

theorem assembleFrom_sorted (lookup : ℕ → Option Buffer) :
    ∀ (l : List ScriptEntry) (i : ℕ),
      List.Sorted (fun a b => a ≤ b) ((assembleFrom lookup i l).map Prod.fst) := by
  intro l
  induction l with
  | nil => intro i; simp [assembleFrom, List.Sorted]
  | cons e rest ih =>
    intro i
    rw [assembleFrom, List.map_append]
    apply (List.pairwise_append).mpr
    refine ⟨?_, ih (i + 1), ?_⟩
    · have hconst : ((segmentsOf lookup i e).map (fun s => (i, s))).map Prod.fst
          = (segmentsOf lookup i e).map (fun _ => i) := by
        simp [List.map_map]
      rw [hconst]
      clear hconst ih
      induction segmentsOf lookup i e with
      | nil => simp [List.Sorted]
      | cons s t iht =>
        rw [List.map_cons]
        apply List.Pairwise.cons
        · intro b hb
          obtain ⟨_, _, rfl⟩ := List.mem_map.mp hb
          exact le_refl i
        · exact iht
    · intro a ha b hb
      obtain ⟨p, hp, rfl⟩ := List.mem_map.mp ha
      obtain ⟨s, _, rfl⟩ := List.mem_map.mp hp
      obtain ⟨q, hq, rfl⟩ := List.mem_map.mp hb
      exact le_trans (Nat.le_succ i) (assembleFrom_fst_ge lookup rest (i + 1) q hq)

theorem assembleFrom_mem_src (lookup : ℕ → Option Buffer) :
    ∀ (l : List ScriptEntry) (i : ℕ) (p : ℕ × Segment),
      p ∈ assembleFrom lookup i l →
        ∃ k, k < l.length ∧ p.1 = i + k
          ∧ p.2 ∈ segmentsOf lookup (i + k) (l.getD k (.unknown "")) := by
  intro l
  induction l with
  | nil => intro i p hp; simp [assembleFrom] at hp
  | cons e rest ih =>
    intro i p hp
    rcases List.mem_append.mp hp with hl | hr
    · obtain ⟨s, hs, rfl⟩ := List.mem_map.mp hl
      exact ⟨0, by simp, by simp, by simpa [List.getD] using hs⟩
    · obtain ⟨k, hk, hfst, hmem⟩ := ih (i + 1) p hr
      refine ⟨k + 1, by simpa using hk, by omega, ?_⟩
      have : i + 1 + k = i + (k + 1) := by omega
      rw [this] at hfst hmem
      simpa [List.getD] using hmem

theorem segmentsOf_congr (lookup₁ lookup₂ : ℕ → Option Buffer)
    (i : ℕ) (h : lookup₁ i = lookup₂ i) (e : ScriptEntry) :
    segmentsOf lookup₁ i e = segmentsOf lookup₂ i e := by
  cases e <;> simp [segmentsOf, h]

theorem assembleFrom_congr (lookup₁ lookup₂ : ℕ → Option Buffer)
    (h : ∀ j, lookup₁ j = lookup₂ j) :
    ∀ (l : List ScriptEntry) (i : ℕ),
      assembleFrom lookup₁ i l = assembleFrom lookup₂ i l := by
  intro l
  induction l with
  | nil => intro i; rfl
  | cons e rest ih =>
    intro i
    rw [assembleFrom, assembleFrom, segmentsOf_congr lookup₁ lookup₂ i (h i), ih (i + 1)]

theorem lookupResult_perm (c₁ c₂ : List (ℕ × Buffer)) (hperm : c₁.Perm c₂)
    (hnd : (c₁.map Prod.fst).Nodup) (j : ℕ) :
    lookupResult c₁ j = lookupResult c₂ j := by
  have hpf : (c₁.filter fun p => decide (p.1 = j)).Perm
      (c₂.filter fun p => decide (p.1 = j)) := hperm.filter _
  rcases h1 : c₁.filter fun p => decide (p.1 = j) with _ | ⟨a, t⟩
  · rw [h1] at hpf
    have h2 := hpf.symm.eq_nil
    rw [lookupResult, lookupResult, h1, h2]
  · cases t with
    | nil =>
      rw [h1] at hpf
      have h2 := List.perm_singleton.mp hpf.symm
      rw [lookupResult, lookupResult, h1, h2]
    | cons b t2 =>
      exfalso
      have hsub : ((c₁.filter fun p => decide (p.1 = j)).map Prod.fst).Nodup :=
        List.Nodup.sublist (List.Sublist.map Prod.fst (List.filter_sublist c₁)) hnd
      rw [h1] at hsub
      have ha : a ∈ c₁.filter fun p => decide (p.1 = j) := by rw [h1]; simp
      have hb : b ∈ c₁.filter fun p => decide (p.1 = j) := by rw [h1]; simp
      have haj : a.1 = j := by simpa using (List.mem_filter.mp ha).2
      have hbj : b.1 = j := by simpa using (List.mem_filter.mp hb).2
      simp only [List.map_cons, List.nodup_cons, List.mem_cons] at hsub
      exact hsub.1 (Or.inl (haj.trans hbj.symm))

/-- C2: output order equals input array order — the viewer renders exactly
one node slot per entry at the entry's own index, and the assembler's
segments carry source entry indices in ascending order, each segment coming
from its own entry; the assembly depends only on which buffer was delivered
for each entry index, so a permutation of the completion order (with one
result per entry) leaves the output unchanged. -/
theorem C2_output_order_is_entry_order (ventries : List ViewEntry)
    (entries : List ScriptEntry) (c₁ c₂ : List (ℕ × Buffer))
    (hperm : c₁.Perm c₂) (hnd : (c₁.map Prod.fst).Nodup) :
    (viewScript ventries).length = ventries.length
    ∧ (∀ i, i < ventries.length →
        (viewScript ventries).getD i none = renderEntry (ventries.getD i defaultViewEntry))
    ∧ List.Sorted (fun a b => a ≤ b)
        ((assemble (lookupResult c₁) entries).map Prod.fst)
    ∧ (∀ p : ℕ × Segment, p ∈ assemble (lookupResult c₁) entries →
        p.1 < entries.length
          ∧ p.2 ∈ segmentsOf (lookupResult c₁) p.1 (entries.getD p.1 (.unknown "")))
    ∧ assemble (lookupResult c₁) entries = assemble (lookupResult c₂) entries := by
  refine ⟨by simp [viewScript], ?_, assembleFrom_sorted _ entries 0, ?_, ?_⟩
  · intro i hi
    rw [viewScript, List.getD_eq_getElem _ _ (by simpa using hi), List.getElem_map,
      List.getD_eq_getElem _ _ hi]
  · intro p hp
    obtain ⟨k, hk, hfst, hmem⟩ := assembleFrom_mem_src _ entries 0 p hp
    rw [Nat.zero_add] at hfst hmem
    subst hfst
    exact ⟨hk, hmem⟩
  · exact assembleFrom_congr _ _ (lookupResult_perm c₁ c₂ hperm hnd) entries 0

/-- A small script for the C2 witness. -/
def wEntries : List ScriptEntry :=
  [.line "A" "en" "hi" none none, .pause 1, .line "B" "en" "yo" none none]

/-- C2 witness: results delivered in reversed completion order assemble to
the same segment list, and the rendered nodes stay index-aligned. -/
theorem C2_witness_completion_order_irrelevant :
    assemble (lookupResult [(2, [5]), (0, [7])]) wEntries
      = assemble (lookupResult [(0, [7]), (2, [5])]) wEntries
    ∧ (viewScript [defaultViewEntry]).length = 1 :=
  ⟨(C2_output_order_is_entry_order [] wEntries [(2, [5]), (0, [7])] [(0, [7]), (2, [5])]
      (by with_unfolding_all decide) (by with_unfolding_all decide)).2.2.2.2,
    (C2_output_order_is_entry_order [defaultViewEntry] wEntries [] []
      (List.Perm.refl []) (by with_unfolding_all decide)).1⟩

/-! ### Voice Resolver and chapter run pipeline (spec §4.2, §4.4–§4.6, §7) -/

structure UnresolvedSpeaker where
  speaker : String
deriving DecidableEq

abbrev VoiceConfig := List (String × VoiceProfile)

/-- Modelled from the spec: individual-speaker resolution (backend, not under
src/) — override map first, then base configuration, then recognized
built-in defaults, else UnresolvedSpeaker. -/
def resolveIndividual (override base builtin : VoiceConfig) (name : String) :
    Except UnresolvedSpeaker VoiceProfile :=
  match alookup name override with
  | some p => .ok p
  | none =>
    match alookup name base with
    | some p => .ok p
    | none =>
      match alookup name builtin with
      | some p => .ok p
      | none => .error ⟨name⟩

/-- Modelled from the spec: each group member is resolved independently with
the same precedence; any unresolved member fails the whole resolution. -/
def resolveMembers (override base builtin : VoiceConfig) :
    List String → Except UnresolvedSpeaker (List VoiceProfile)
  | [] => .ok []
  | m :: rest =>
    match resolveIndividual override base builtin m with
    | .error u => .error u
    | .ok p =>
      match resolveMembers override base builtin rest with
      | .error u => .error u
      | .ok ps => .ok (p :: ps)

/-- Modelled from the spec: a group alias expands to its fixed membership
list; an individual speaker resolves to exactly one profile. -/
def resolveSpeaker (groups : List (String × List String))
    (override base builtin : VoiceConfig) (name : String) :
    Except UnresolvedSpeaker (List VoiceProfile) :=
  match alookup name groups with
  | some members => resolveMembers override base builtin members
  | none =>
    match resolveIndividual override base builtin name with
    | .error u => .error u
    | .ok p => .ok [p]

/-- The speakers referenced by a script's line entries, in order. -/
def speakersOf (entries : List ScriptEntry) : List String :=
  entries.filterMap fun e =>
    match e with
    | .line sp _ _ _ _ => some sp
    | _ => none

/-- Modelled from the spec: all referenced speakers are resolved before any
synthesis call is issued. -/
def resolveAll (groups : List (String × List String))
    (override base builtin : VoiceConfig) :
    List String → Except UnresolvedSpeaker (List (String × List VoiceProfile))
  | [] => .ok []
  | sp :: rest =>
    match resolveSpeaker groups override base builtin sp with
    | .error u => .error u
    | .ok ps =>
      match resolveAll groups override base builtin rest with
      | .error u => .error u
      | .ok m => .ok ((sp, ps) :: m)

/-- The synthesis calls for one line: one per resolved profile of its
speaker (a group line fans out to all members). -/
def callsForLine (table : List (String × EmotionParams))
    (profiles : List VoiceProfile) (speaker text : String) : List SynthCall :=
  profiles.map fun vp =>
    ⟨speaker, vp.voice_id, (applyEmotion table vp text).1.stability,
      (applyEmotion table vp text).1.style, (applyEmotion table vp text).2⟩

/-- The per-line call batches of a chapter, keyed by original entry index. -/
def indexedLineCallsFrom (table : List (String × EmotionParams))
    (resolved : List (String × List VoiceProfile)) (i : ℕ) :
    List ScriptEntry → List (ℕ × List SynthCall)
  | [] => []
  | .line sp _ tx _ _ :: rest =>
    (i, callsForLine table ((alookup sp resolved).getD []) sp tx)
      :: indexedLineCallsFrom table resolved (i + 1) rest
  | _ :: rest => indexedLineCallsFrom table resolved (i + 1) rest

/-- Issues one batch of calls in order; a failed call (the test double
returns none) aborts with the failing speaker after logging the call. -/
def synthCallsSeq (synth : SynthCall → Option Buffer) :
    List SynthCall → List SynthCall × Except String (List Buffer)
  | [] => ([], .ok [])
  | c :: rest =>
    match synth c with
    | none => ([c], .error c.speaker)
    | some b =>
      match synthCallsSeq synth rest with
      | (issued, .error sp) => (c :: issued, .error sp)
      | (issued, .ok bufs) => (c :: issued, .ok (b :: bufs))

/-- A single synthesized buffer stays as is; a group's buffers are mixed. -/
def mixOrSingle (bufs : List Buffer) : Buffer :=
  match bufs with
  | [b] => b
  | bs => mixBuffers bs

/-- Modelled from the spec: the Synthesis Dispatcher — every line's batch is
dispatched, results are keyed by original entry index, and a failure aborts
the run with SynthesisFailed. -/
def dispatchFrom (synth : SynthCall → Option Buffer) :
    List (ℕ × List SynthCall) → List SynthCall × Except String (List (ℕ × Buffer))
  | [] => ([], .ok [])
  | (i, calls) :: rest =>
    match synthCallsSeq synth calls with
    | (issued, .error sp) => (issued, .error sp)
    | (issued, .ok bufs) =>
      match dispatchFrom synth rest with
      | (issued2, .error sp) => (issued ++ issued2, .error sp)
      | (issued2, .ok results) => (issued ++ issued2, .ok ((i, mixOrSingle bufs) :: results))

inductive RunError
  | malformedScript (e : MalformedScript)
  | unresolvedSpeaker (e : UnresolvedSpeaker)
  | synthesisFailed (speaker : String)
  | exportFailed
deriving DecidableEq

/-- A Chapter Artifact: encoded audio data plus its measured duration. -/
structure Artifact where
  duration : ℚ
  data : Buffer
deriving DecidableEq

/-- The store of exported chapter artifacts, keyed by (story id, chapter
number); insertion at the front supersedes the previous artifact. -/
abbrev Store := List ((ℕ × ℕ) × Artifact)

def storeGet (store : Store) (key : ℕ × ℕ) : Option Artifact := alookup key store

def storeSet (store : Store) (key : ℕ × ℕ) (a : Artifact) : Store := (key, a) :: store

instance {α β : Type} [DecidableEq α] [DecidableEq β] : DecidableEq (Except α β) :=
  fun a b =>
    match a, b with
    | .error x, .error y =>
      if h : x = y then .isTrue (by subst h; rfl) else .isFalse (by simp [h])
    | .ok x, .ok y =>
      if h : x = y then .isTrue (by subst h; rfl) else .isFalse (by simp [h])
    | .error _, .ok _ => .isFalse (by simp)
    | .ok _, .error _ => .isFalse (by simp)

/-- The outcome of one chapter run: the result, the artifact store after the
run, and the synthesis calls issued to the external service. -/
structure RunOutcome where
  result : Except RunError Artifact
  store : Store
  calls : List SynthCall
deriving DecidableEq

/-- Modelled from the spec: the full chapter run — validate, resolve every
speaker (aborting with UnresolvedSpeaker before any synthesis call),
dispatch synthesis, assemble in entry order, encode and export; the stored
artifact is replaced only on a successful export. -/
def runChapter (table : List (String × EmotionParams))
    (groups : List (String × List String)) (override base builtin : VoiceConfig)
    (synth : SynthCall → Option Buffer) (encode : List Segment → Option Artifact)
    (store : Store) (storyId chapterNumber : ℕ) (raw : List RawEntry) : RunOutcome :=
  match validateScript raw with
  | .error e => ⟨.error (.malformedScript e), store, []⟩
  | .ok entries =>
    match resolveAll groups override base builtin (speakersOf entries) with
    | .error u => ⟨.error (.unresolvedSpeaker u), store, []⟩
    | .ok resolved =>
      match dispatchFrom synth (indexedLineCallsFrom table resolved 0 entries) with
      | (issued, .error sp) => ⟨.error (.synthesisFailed sp), store, issued⟩
      | (issued, .ok results) =>
        match encode ((assemble (lookupResult results) entries).map Prod.snd) with
        | none => ⟨.error .exportFailed, store, issued⟩
        | some art =>
          ⟨.ok art, storeSet store (storyId, chapterNumber) art, issued⟩

theorem resolveMembers_error_of_mem (override base builtin : VoiceConfig) :
    ∀ (members : List String) (m : String), m ∈ members →
      (∃ u, resolveIndividual override base builtin m = .error u) →
      ∃ u, resolveMembers override base builtin members = .error u := by
  intro members
  induction members with
  | nil => intro m h; simp at h
  | cons x rest ih =>
    intro m hmem hu
    rcases List.mem_cons.mp hmem with rfl | hr
    · obtain ⟨u, hu⟩ := hu
      exact ⟨u, by simp [resolveMembers, hu]⟩
    · rcases hx : resolveIndividual override base builtin x with u2 | p
      · exact ⟨u2, by simp [resolveMembers, hx]⟩
      · obtain ⟨u3, h3⟩ := ih m hr hu
        exact ⟨u3, by simp [resolveMembers, hx, h3]⟩

theorem resolveAll_error_of_mem (groups : List (String × List String))
    (override base builtin : VoiceConfig) :
    ∀ (l : List String) (sp : String), sp ∈ l →
      (∃ u, resolveSpeaker groups override base builtin sp = .error u) →
      ∃ u, resolveAll groups override base builtin l = .error u := by
  intro l
  induction l with
  | nil => intro sp h; simp at h
  | cons x rest ih =>
    intro sp hmem hu
    rcases List.mem_cons.mp hmem with rfl | hr
    · obtain ⟨u, hu⟩ := hu
      exact ⟨u, by simp [resolveAll, hu]⟩
    · rcases hx : resolveSpeaker groups override base builtin x with u2 | ps
      · exact ⟨u2, by simp [resolveAll, hx]⟩
      · obtain ⟨u3, h3⟩ := ih sp hr hu
        exact ⟨u3, by simp [resolveAll, hx, h3]⟩

/-- C5: a script referencing a speaker that resolves to UnresolvedSpeaker
(individual, or through a group alias with an unresolved member) makes the
chapter run fail with UnresolvedSpeaker while issuing zero calls to the
external synthesis service; one unresolved member fails the whole group
resolution. -/
theorem C5_unresolved_speaker_aborts_with_zero_calls
    (table : List (String × EmotionParams)) (groups : List (String × List String))
    (override base builtin : VoiceConfig) (synth : SynthCall → Option Buffer)
    (encode : List Segment → Option Artifact) (store : Store) (sid ch : ℕ)
    (raw : List RawEntry) (entries : List ScriptEntry) (sp : String)
    (hval : validateScript raw = Except.ok entries)
    (hsp : sp ∈ speakersOf entries)
    (hunres : ∃ u, resolveSpeaker groups override base builtin sp = .error u) :
    (∃ u, (runChapter table groups override base builtin synth encode store sid ch raw).result
        = .error (.unresolvedSpeaker u))
    ∧ (runChapter table groups override base builtin synth encode store sid ch raw).calls = []
    ∧ (∀ g members m, alookup g groups = some members → m ∈ members →
        (∃ u, resolveIndividual override base builtin m = .error u) →
        ∃ u, resolveSpeaker groups override base builtin g = .error u) := by
  obtain ⟨u, hu⟩ :=
    resolveAll_error_of_mem groups override base builtin (speakersOf entries) sp hsp hunres
  refine ⟨⟨u, by simp [runChapter, hval, hu]⟩, by simp [runChapter, hval, hu], ?_⟩
  intro g members m hg hm hmu
  obtain ⟨u2, h2⟩ := resolveMembers_error_of_mem override base builtin members m hm hmu
  exact ⟨u2, by simp [resolveSpeaker, hg, h2]⟩

/-- A roster with one group alias whose member "B" has no Voice Profile. -/
def wGroups : List (String × List String) := [("ALL", ["A", "B"])]

/-- A raw script whose only line is spoken by the group alias. -/
def wRawGroup : List RawEntry :=
  [RawEntry.mk "line" (some "ALL") (some "en") (some "hi") none none none none none]

/-- C5 witness: the group line over an incomplete roster fails with
UnresolvedSpeaker and the synthesis test double is never called. -/
theorem C5_witness_group_member_unresolved :
    (∃ u, (runChapter [] wGroups [] [("A", sampleProfileA)] [] (fun _ => some [1])
        (fun _ => some ⟨0, []⟩) [] 1 1 wRawGroup).result = .error (.unresolvedSpeaker u))
    ∧ (runChapter [] wGroups [] [("A", sampleProfileA)] [] (fun _ => some [1])
        (fun _ => some ⟨0, []⟩) [] 1 1 wRawGroup).calls = [] :=
  ⟨(C5_unresolved_speaker_aborts_with_zero_calls [] wGroups [] [("A", sampleProfileA)] []
      (fun _ => some [1]) (fun _ => some ⟨0, []⟩) [] 1 1 wRawGroup
      [.line "ALL" "en" "hi" none none] "ALL"
      (by with_unfolding_all decide) (by with_unfolding_all decide)
      ⟨⟨"B"⟩, by with_unfolding_all decide⟩).1,
    (C5_unresolved_speaker_aborts_with_zero_calls [] wGroups [] [("A", sampleProfileA)] []
      (fun _ => some [1]) (fun _ => some ⟨0, []⟩) [] 1 1 wRawGroup
      [.line "ALL" "en" "hi" none none] "ALL"
      (by with_unfolding_all decide) (by with_unfolding_all decide)
      ⟨⟨"B"⟩, by with_unfolding_all decide⟩).2.1⟩

theorem storeGet_storeSet (store : Store) (key : ℕ × ℕ) (a : Artifact) :
    storeGet (storeSet store key a) key = some a := by
  simp [storeGet, storeSet, alookup]

theorem runChapter_cases (table : List (String × EmotionParams))
    (groups : List (String × List String)) (override base builtin : VoiceConfig)
    (synth : SynthCall → Option Buffer) (encode : List Segment → Option Artifact)
    (store : Store) (sid ch : ℕ) (raw : List RawEntry) :
    (∃ err, (runChapter table groups override base builtin synth encode store sid ch raw).result
        = Except.error err
      ∧ (runChapter table groups override base builtin synth encode store sid ch raw).store
        = store)
    ∨ (∃ a, (runChapter table groups override base builtin synth encode store sid ch raw).result
        = Except.ok a
      ∧ (runChapter table groups override base builtin synth encode store sid ch raw).store
        = storeSet store (sid, ch) a) := by
  rcases hval : validateScript raw with e | entries
  · exact Or.inl ⟨.malformedScript e, by simp [runChapter, hval], by simp [runChapter, hval]⟩
  · rcases hres : resolveAll groups override base builtin (speakersOf entries) with u | resolved
    · exact Or.inl ⟨.unresolvedSpeaker u, by simp [runChapter, hval, hres],
        by simp [runChapter, hval, hres]⟩
    · rcases hdis : dispatchFrom synth (indexedLineCallsFrom table resolved 0 entries)
        with ⟨issued, r⟩
      cases r with
      | error sp =>
        exact Or.inl ⟨.synthesisFailed sp, by simp [runChapter, hval, hres, hdis],
          by simp [runChapter, hval, hres, hdis]⟩
      | ok results =>
        rcases henc : encode ((assemble (lookupResult results) entries).map Prod.snd)
          with _ | art
        · exact Or.inl ⟨.exportFailed, by simp [runChapter, hval, hres, hdis, henc],
            by simp [runChapter, hval, hres, hdis, henc]⟩
        · exact Or.inr ⟨art, by simp [runChapter, hval, hres, hdis, henc],
            by simp [runChapter, hval, hres, hdis, henc]⟩

/-- C6: a chapter run that fails at any stage leaves the artifact store — in
particular any previously exported artifact for the same chapter — unchanged,
and the store changes only when a new export succeeds, at which point the
chapter's stored artifact is the newly exported one. -/
theorem C6_failed_run_leaves_store_untouched (table : List (String × EmotionParams))
    (groups : List (String × List String)) (override base builtin : VoiceConfig)
    (synth : SynthCall → Option Buffer) (encode : List Segment → Option Artifact)
    (store : Store) (sid ch : ℕ) (raw : List RawEntry) :
    ((∃ err, (runChapter table groups override base builtin synth encode store sid ch raw).result
        = Except.error err) →
      (runChapter table groups override base builtin synth encode store sid ch raw).store = store)
    ∧ ((runChapter table groups override base builtin synth encode store sid ch raw).store ≠ store →
        ∃ a, (runChapter table groups override base builtin synth encode store sid ch raw).result
            = Except.ok a
          ∧ (runChapter table groups override base builtin synth encode store sid ch raw).store
            = storeSet store (sid, ch) a
          ∧ storeGet (runChapter table groups override base builtin synth encode store
              sid ch raw).store (sid, ch) = some a) := by
  rcases runChapter_cases table groups override base builtin synth encode store sid ch raw
    with ⟨err, hr, hs⟩ | ⟨a, hr, hs⟩
  · exact ⟨fun _ => hs, fun hne => absurd hs hne⟩
  · constructor
    · rintro ⟨err, herr⟩
      rw [hr] at herr
      cases herr
    · intro _
      exact ⟨a, hr, hs, by rw [hs]; exact storeGet_storeSet store (sid, ch) a⟩

/-- A previously exported artifact for chapter (1,1). -/
def wOldStore : Store := [((1, 1), ⟨1, [2]⟩)]

/-- A raw script with a single pause entry. -/
def wRawPause : List RawEntry :=
  [RawEntry.mk "pause" none none none none none (some 1) none none]

/-- C6 witness: an encoder failure (ExportFailed) leaves the stored artifact
for the chapter untouched, while a successful export replaces it. -/
theorem C6_witness_export_failure_preserves_artifact :
    (runChapter [] [] [] [] [] (fun _ => some [1]) (fun _ => none)
        wOldStore 1 1 wRawPause).store = wOldStore
    ∧ ∃ a, (runChapter [] [] [] [] [] (fun _ => some [1]) (fun _ => some ⟨1, [3]⟩)
          wOldStore 1 1 wRawPause).result = Except.ok a
        ∧ (runChapter [] [] [] [] [] (fun _ => some [1]) (fun _ => some ⟨1, [3]⟩)
            wOldStore 1 1 wRawPause).store = storeSet wOldStore (1, 1) a
        ∧ storeGet (runChapter [] [] [] [] [] (fun _ => some [1])
            (fun _ => some ⟨1, [3]⟩) wOldStore 1 1 wRawPause).store (1, 1) = some a :=
  ⟨(C6_failed_run_leaves_store_untouched [] [] [] [] [] (fun _ => some [1]) (fun _ => none)
      wOldStore 1 1 wRawPause).1 ⟨.exportFailed, by with_unfolding_all decide⟩,
    (C6_failed_run_leaves_store_untouched [] [] [] [] [] (fun _ => some [1])
      (fun _ => some ⟨1, [3]⟩) wOldStore 1 1 wRawPause).2
      (by with_unfolding_all decide)⟩

/-! ### Chapter ordering and the Story Combiner (PublicChapterList.tsx,
StoryDetail.tsx, spec §4.7) -/

/-- A chapter row as the frontend receives it. -/
structure ChapterInfo where
  id : ℕ
  chapter_number : ℕ
  title : Option String
  status : String
  audio_path : Option String
deriving DecidableEq

/-- Ascending chapter-number order. -/
def chLe (a b : ChapterInfo) : Prop := a.chapter_number ≤ b.chapter_number

/-- Strict ascending chapter-number order. -/
def chLt (a b : ChapterInfo) : Prop := a.chapter_number < b.chapter_number

instance : DecidableRel chLe := fun x y => Nat.decLe x.chapter_number y.chapter_number

instance : IsTotal ChapterInfo chLe := ⟨fun x y => Nat.le_total x.chapter_number y.chapter_number⟩

instance : IsTrans ChapterInfo chLe := ⟨fun _ _ _ h1 h2 => Nat.le_trans h1 h2⟩

instance : IsAntisymm ChapterInfo chLt :=
  ⟨fun _ _ h1 h2 => absurd h1 (Nat.lt_asymm h2)⟩

/-- `[...chapters].sort((a, b) => a.chapter_number - b.chapter_number)` — the
stable ascending sort both chapter lists apply before rendering. -/
def sortChapters (chapters : List ChapterInfo) : List ChapterInfo :=
  List.insertionSort chLe chapters

structure MissingChapterArtifact where
  chapter : ℕ
deriving DecidableEq

/-- Modelled from the spec: the Story Combiner (backend, not under src/) —
fetches each requested chapter's already-exported artifact and concatenates
the audio byte-for-byte, failing with MissingChapterArtifact when a chapter
has no artifact; nothing is persisted. -/
def combineStory (store : Store) (sid : ℕ) :
    List ℕ → Except MissingChapterArtifact Buffer
  | [] => .ok []
  | n :: rest =>
    match storeGet store (sid, n) with
    | none => .error ⟨n⟩
    | some a =>
      match combineStory store sid rest with
      | .error e => .error e
      | .ok tail => .ok (a.data ++ tail)

/-- The concatenation, in list order, of the stored audio of the given
chapters. -/
def concatData (store : Store) (sid : ℕ) (nums : List ℕ) : Buffer :=
  nums.foldr (fun n acc => (((storeGet store (sid, n)).map Artifact.data).getD []) ++ acc) []

/-- The full-story stream: per-chapter artifacts in ascending chapter-number
order, concatenated on demand. -/
def fullStory (store : Store) (sid : ℕ) (chapters : List ChapterInfo) :
    Except MissingChapterArtifact Buffer :=
  combineStory store sid ((sortChapters chapters).map ChapterInfo.chapter_number)

theorem combineStory_ok (store : Store) (sid : ℕ) :
    ∀ nums : List ℕ, (∀ n ∈ nums, storeGet store (sid, n) ≠ none) →
      combineStory store sid nums = .ok (concatData store sid nums) := by
  intro nums
  induction nums with
  | nil => intro _; rfl
  | cons n rest ih =>
    intro h
    rcases hn : storeGet store (sid, n) with _ | a
    · exact absurd hn (h n (List.mem_cons_self n rest))
    · have hr := ih fun m hm => h m (List.mem_cons_of_mem n hm)
      simp [combineStory, hn, hr, concatData, List.foldr_cons]

theorem sortChapters_eq_of_perm (chapters chapters' : List ChapterInfo)
    (hperm : chapters.Perm chapters')
    (hnd : chapters.Pairwise fun a b => a.chapter_number ≠ b.chapter_number) :
    sortChapters chapters = sortChapters chapters' := by
  have hp1 : (sortChapters chapters).Perm chapters := List.perm_insertionSort chLe chapters
  have hp2 : (sortChapters chapters').Perm chapters' := List.perm_insertionSort chLe chapters'
  have hs1 : List.Sorted chLe (sortChapters chapters) := List.sorted_insertionSort chLe chapters
  have hs2 : List.Sorted chLe (sortChapters chapters') := List.sorted_insertionSort chLe chapters'
  have hnd1 : (sortChapters chapters).Pairwise
      fun a b => a.chapter_number ≠ b.chapter_number :=
    (List.Perm.pairwise_iff (fun h => Ne.symm h) hp1).mpr hnd
  have hnd2 : (sortChapters chapters').Pairwise
      fun a b => a.chapter_number ≠ b.chapter_number :=
    (List.Perm.pairwise_iff (fun h => Ne.symm h) hp2).mpr
      ((List.Perm.pairwise_iff (fun h => Ne.symm h) hperm).mp hnd)
  have hlt1 : List.Sorted chLt (sortChapters chapters) := by
    have := List.Pairwise.and hs1 hnd1
    exact this.imp fun h => lt_of_le_of_ne h.1 h.2
  have hlt2 : List.Sorted chLt (sortChapters chapters') := by
    have := List.Pairwise.and hs2 hnd2
    exact this.imp fun h => lt_of_le_of_ne h.1 h.2
  exact List.eq_of_perm_of_sorted (hp1.trans (hperm.trans hp2.symm)) hlt1 hlt2

/-- C7: the chapter lists are presented in ascending chapter-number order
regardless of the order the chapters were supplied in, and the full-story
output is the on-demand concatenation of the per-chapter artifacts in that
ascending order. -/
theorem C7_story_is_ascending_concatenation_of_chapters (store : Store) (sid : ℕ)
    (chapters chapters' : List ChapterInfo)
    (hperm : chapters.Perm chapters')
    (hnd : chapters.Pairwise fun a b => a.chapter_number ≠ b.chapter_number) :
    List.Sorted chLe (sortChapters chapters)
    ∧ (sortChapters chapters).Perm chapters
    ∧ sortChapters chapters = sortChapters chapters'
    ∧ (∀ nums : List ℕ, (∀ n ∈ nums, storeGet store (sid, n) ≠ none) →
        combineStory store sid nums = .ok (concatData store sid nums))
    ∧ ((∀ c ∈ chapters, storeGet store (sid, c.chapter_number) ≠ none) →
        fullStory store sid chapters
          = .ok (concatData store sid
              ((sortChapters chapters).map ChapterInfo.chapter_number))) := by
  refine ⟨List.sorted_insertionSort chLe chapters, List.perm_insertionSort chLe chapters,
    sortChapters_eq_of_perm chapters chapters' hperm hnd, combineStory_ok store sid, ?_⟩
  intro hall
  apply combineStory_ok
  intro n hn
  obtain ⟨c, hc, rfl⟩ := List.mem_map.mp hn
  exact hall c ((List.perm_insertionSort chLe chapters).mem_iff.mp hc)

/-- Two chapter rows supplied out of order. -/
def wChapters : List ChapterInfo :=
  [⟨12, 2, none, "completed", some "p2"⟩, ⟨11, 1, none, "completed", some "p1"⟩]

/-- C7 witness: the out-of-order chapter list sorts to ascending numbers, and
a two-chapter store combines to chapter 1's audio followed by chapter 2's. -/
theorem C7_witness_two_chapters :
    sortChapters wChapters = sortChapters (wChapters.reverse)
    ∧ fullStory [((1, 1), ⟨1, [4]⟩), ((1, 2), ⟨1, [5]⟩)] 1 wChapters
      = .ok ([4] ++ [5]) :=
  ⟨(C7_story_is_ascending_concatenation_of_chapters [] 1 wChapters (wChapters.reverse)
      (by with_unfolding_all decide) (by with_unfolding_all decide)).2.2.1,
    ((C7_story_is_ascending_concatenation_of_chapters
        [((1, 1), ⟨1, [4]⟩), ((1, 2), ⟨1, [5]⟩)] 1 wChapters (wChapters.reverse)
        (by with_unfolding_all decide) (by with_unfolding_all decide)).2.2.2.2
      (by with_unfolding_all decide)).trans (by with_unfolding_all decide)⟩

/-! ### Voice override construction (VoiceAssignmentModal `handleConfirm`,
StoryDetail `handleVoiceConfirm`) and resolver precedence (spec §4.2) -/

/-- A partial per-speaker voice record as the frontend assembles it
(`Record<string, unknown>` — any field may be absent). -/
structure JsVoice where
  voice_id : Option String
  stability : Option ℚ
  similarity_boost : Option ℚ
  style : Option ℚ
  use_speaker_boost : Option Bool
deriving DecidableEq

def emptyJsVoice : JsVoice := ⟨none, none, none, none, none⟩

/-- `{ ...(voiceConfig[speaker] || {}), voice_id: voiceId }` — the speaker's
base config spread first, the selected voice id written over it. -/
def mkOverrideEntry (base : Option JsVoice) (voiceId : String) : JsVoice :=
  { base.getD emptyJsVoice with voice_id := some voiceId }

/-- `handleConfirm` of VoiceAssignmentModal: only speakers with a selected
(truthy) voice contribute an entry to the override map. -/
def buildOverride (speakers : List String) (assignments : String → Option String)
    (voiceConfig : String → Option JsVoice) : List (String × JsVoice) :=
  speakers.filterMap fun sp =>
    match assignments sp with
    | none => none
    | some v => if v = "" then none else some (sp, mkOverrideEntry (voiceConfig sp) v)

/-- `handleVoiceConfirm` of StoryDetail: an empty override map is sent as
null. -/
def overridePayload (ov : List (String × JsVoice)) : Option (List (String × JsVoice)) :=
  if 0 < ov.length then some ov else none

/-- C8: the resolver consults the caller-supplied override map before the
base configuration; the override entry built by the frontend carries the
selected voice_id while every other field falls back to the speaker's base
profile; speakers with no selection contribute no entry, and an entirely
empty selection yields no override map at all (null). -/
theorem C8_override_map_precedence_and_construction
    (override base builtin : VoiceConfig) (name : String) (p : VoiceProfile)
    (speakers : List String) (assignments : String → Option String)
    (voiceConfig : String → Option JsVoice) :
    (alookup name override = some p →
      resolveIndividual override base builtin name = .ok p)
    ∧ (∀ sp e, (sp, e) ∈ buildOverride speakers assignments voiceConfig
        ↔ sp ∈ speakers ∧ ∃ v, assignments sp = some v ∧ v ≠ ""
            ∧ e = mkOverrideEntry (voiceConfig sp) v)
    ∧ (∀ b v, mkOverrideEntry (some b) v
        = ⟨some v, b.stability, b.similarity_boost, b.style, b.use_speaker_boost⟩)
    ∧ ((∀ sp ∈ speakers, assignments sp = none ∨ assignments sp = some "") →
        overridePayload (buildOverride speakers assignments voiceConfig) = none) := by
  refine ⟨?_, ?_, fun b v => rfl, ?_⟩
  · intro h
    simp [resolveIndividual, h]
  · intro sp e
    constructor
    · intro hmem
      obtain ⟨x, hx, hfx⟩ := List.mem_filterMap.mp hmem
      rcases ha : assignments x with _ | v
      · simp only [ha] at hfx
        cases hfx
      · simp only [ha] at hfx
        by_cases hv : v = ""
        · rw [if_pos hv] at hfx; cases hfx
        · rw [if_neg hv] at hfx
          obtain ⟨rfl, rfl⟩ : x = sp ∧ mkOverrideEntry (voiceConfig x) v = e := by
            cases hfx; exact ⟨rfl, rfl⟩
          exact ⟨hx, v, ha, hv, rfl⟩
    · rintro ⟨hsp, v, ha, hv, rfl⟩
      apply List.mem_filterMap.mpr
      exact ⟨sp, hsp, by simp only [ha, if_neg hv]⟩
  · intro h
    have hempty : buildOverride speakers assignments voiceConfig = [] := by
      rw [buildOverride, List.filterMap_eq_nil_iff]
      intro sp hsp
      rcases h sp hsp with ha | ha <;> simp [ha]
    rw [hempty]
    rfl

/-- A base voice config assigning speaker "A" a full profile. -/
def wVoiceConfig : String → Option JsVoice := fun sp =>
  if sp = "A" then some ⟨some "oldVoice", some 1, some (19 / 20), some (1 / 5), some true⟩
  else none

/-- Selections: a new voice for "A", nothing for "B". -/
def wAssignments : String → Option String := fun sp =>
  if sp = "A" then some "newVoice" else some ""

/-- C8 witness: the built override contains exactly the entry for "A" with
the new voice_id and the base profile's other fields; resolution prefers an
override entry; an all-empty selection is sent as null. -/
theorem C8_witness_override_construction :
    (("A", JsVoice.mk (some "newVoice") (some 1) (some (19 / 20)) (some (1 / 5)) (some true))
        ∈ buildOverride ["A", "B"] wAssignments wVoiceConfig)
    ∧ (∀ e, ("B", e) ∉ buildOverride ["A", "B"] wAssignments wVoiceConfig)
    ∧ resolveIndividual [("A", sampleProfileA)] [] [] "A" = .ok sampleProfileA
    ∧ overridePayload (buildOverride ["B"] wAssignments wVoiceConfig) = none := by
  refine ⟨?_, ?_, ?_, ?_⟩
  · exact (C8_override_map_precedence_and_construction [] [] [] "A" sampleProfileA
      ["A", "B"] wAssignments wVoiceConfig).2.1 "A" _ |>.mpr
      ⟨by with_unfolding_all decide, "newVoice", by with_unfolding_all decide,
        by with_unfolding_all decide, by with_unfolding_all decide⟩
  · intro e hmem
    have h := (C8_override_map_precedence_and_construction [] [] [] "A" sampleProfileA
      ["A", "B"] wAssignments wVoiceConfig).2.1 "B" e |>.mp hmem
    obtain ⟨_, v, ha, hv, _⟩ := h
    rw [show wAssignments "B" = some "" from by with_unfolding_all decide] at ha
    cases ha
    exact hv rfl
  · exact (C8_override_map_precedence_and_construction [("A", sampleProfileA)] [] [] "A"
      sampleProfileA [] wAssignments wVoiceConfig).1 (by with_unfolding_all decide)
  · exact (C8_override_map_precedence_and_construction [] [] [] "A" sampleProfileA
      ["B"] wAssignments wVoiceConfig).2.2.2
      (by intro sp hsp; right; rw [show sp = "B" from by simpa using hsp]
          with_unfolding_all decide)

end Lingolou
